import Mathlib

/-!
# Verification of the gl-demo adaptive terrain / LOD heightmap engine

Shallow embedding, over exact rationals, of the core of
`src/model/heightmap/simpleheightmap.rs` and `src/physics.rs`:

* the staggered height grid (`SimpleHeightmapGeometry`) with its
  index / position conversions and adjacency computation;
* the tile mesh generator `as_geometry` (index buffer and vertex count);
* the spatial query `get_tri_from_position` together with the list of
  `heights`-array indices it reads;
* the LOD machinery `gen_lod` / `update_lod` / `with_size`, where the
  `f32::NAN` dead-band coordinates are modelled by `Option ℚ`
  (`none` = NaN: every ordered comparison with it is false, mirroring IEEE
  semantics used by the Rust code);
* the character integrator `do_char_movement`.

`f32` values are modelled as exact rationals (`ℚ`); the heightmap code is
purely algebraic (field operations, floor, comparisons), so every claim
settled here is a statement about the algorithm under exact arithmetic.
The only genuinely irrational primitive, `f32::hypot` in the integrator, is
passed to the embedded integrator as an explicit function argument; the
theorems below either hold for every such function or use no property of it.
-/

namespace GlDemo

/-- 3-component vector of rationals, embedding `Vec3<f32>`
(`src/linear_algebra/vec3.rs`). -/
structure Vec3q where
  x : ℚ
  y : ℚ
  z : ℚ
  deriving DecidableEq, Repr

namespace Vec3q

/-- Componentwise subtraction (`impl Sub for Vec3<T>`). -/
def sub (a b : Vec3q) : Vec3q := ⟨a.x - b.x, a.y - b.y, a.z - b.z⟩

instance : Sub Vec3q := ⟨sub⟩

/-- Dot product (`Vec3::dot`). -/
def dot (a b : Vec3q) : ℚ := a.x * b.x + a.y * b.y + a.z * b.z

/-- Cross product (`Vec3::cross`). -/
def cross (a b : Vec3q) : Vec3q :=
  ⟨a.y * b.z - a.z * b.y, a.z * b.x - a.x * b.z, a.x * b.y - a.y * b.x⟩

end Vec3q

/-- `const ROW_SPACING: f32 = 0.8660254037844386` — the spacing between rows
of the equilateral-triangle grid (`0.5 * tan(pi/3)`). -/
def rowSpacing : ℚ := 0.8660254037844386

/-- The in-memory height grid (`struct SimpleHeightmapGeometry`).  The
`HeightmapVertex` entries carry only their `height: f32`, modelled as `ℚ`
(the `metadata` field of the Rust struct is the unit type). -/
structure SimpleHeightmapGeometry where
  width : ℕ
  heights : List ℚ
  x_offset : ℚ
  z_offset : ℚ
  resolution : ℚ
  deriving DecidableEq, Repr

namespace SimpleHeightmapGeometry

/-- `fn get_index(&self, x, z) -> usize { x + z * self.width }` -/
def get_index (g : SimpleHeightmapGeometry) (x z : ℕ) : ℕ :=
  x + z * g.width

/-- `fn height(&self) -> usize { self.heights.len() / self.width }` -/
def height (g : SimpleHeightmapGeometry) : ℕ :=
  g.heights.length / g.width

/-- `fn get_position(&self, index) -> Vec3<f32>`: world position of a vertex,
accounting for row parity (odd rows shifted by half a cell on X) and
`ROW_SPACING` scaling on Z.  The Rust code indexes `self.heights[index]`;
out-of-range access is a panic there and is modelled by `getD _ 0` here
(claim C9 concerns exactly which indices are read, via `triReads` below). -/
def get_position (g : SimpleHeightmapGeometry) (index : ℕ) : Vec3q :=
  ⟨((index % g.width : ℕ) +
      (if (index / g.width) % 2 = 0 then 0 else 1/2 : ℚ)) * g.resolution +
      g.x_offset,
   g.heights.getD index 0,
   (index / g.width : ℕ) * rowSpacing * g.resolution + g.z_offset⟩

/-- `fn get_index_from_position(&self, pos) -> usize`: floor the Z ratio to
get the row, un-shift by the row parity and floor to get the column.
`as usize` on a non-negative value is `Int.toNat` (negative values saturate
to zero, just as a negative `f32` cast to `usize` does in Rust ≥ 1.45). -/
def get_index_from_position (g : SimpleHeightmapGeometry) (pos : Vec3q) : ℕ :=
  let unpos_z : ℤ := ⌊(pos.z - g.z_offset) / g.resolution / rowSpacing⌋
  let unpos_x : ℤ :=
    ⌊(pos.x - g.x_offset) / g.resolution -
      (if unpos_z % 2 = 0 then 0 else 1/2)⌋
  g.get_index unpos_x.toNat unpos_z.toNat

/-- `fn get_adjacent_vertices(&self, x, z) -> Vec<usize>`: neighbour indices
for normal averaging.  Sequential `push` calls are modelled by list
concatenation in the same order; `z as isize - 1 >= 0` is `1 ≤ z` and
`x as isize - 1 >= 0` is `1 ≤ x`. -/
def get_adjacent_vertices (g : SimpleHeightmapGeometry) (x z : ℕ) : List ℕ :=
  (if z % 2 = 0 then
    (if 1 ≤ z then
      (if 1 ≤ x then [g.get_index (x - 1) (z - 1)] else []) ++
        [g.get_index x (z - 1)]
     else []) ++
    (if z + 1 < g.height then
      (if 1 ≤ x then [g.get_index (x - 1) (z + 1)] else []) ++
        [g.get_index x (z + 1)]
     else [])
   else
    (if 1 ≤ z then
      [g.get_index x (z - 1)] ++
        (if x + 1 < g.width then [g.get_index (x + 1) (z - 1)] else [])
     else []) ++
    (if z + 1 < g.height then
      [g.get_index x (z + 1)] ++
        (if x + 1 < g.width then [g.get_index (x + 1) (z + 1)] else [])
     else [])) ++
  (if 1 ≤ x then [g.get_index (x - 1) z] else []) ++
  (if x + 1 < g.width then [g.get_index (x + 1) z] else [])

end SimpleHeightmapGeometry

/-- The value sequence of `let mut v = start; while v < stop { ...; v += step }`:
`start, start + step, start + 2*step, ...` below `stop`.  (For `step = 0` the
Rust loop would not terminate; the claims only instantiate `step ≥ 1`.) -/
def stepList (start stop step : ℕ) : List ℕ :=
  (List.range ((stop - start + step - 1) / step)).map (fun i => start + i * step)

namespace SimpleHeightmapGeometry

/-- `fn as_geometry(&self, lod, left_x, top_z, right_x, bottom_z) -> mem::Geometry`,
restricted to the observables the claims are about: the number of vertices
pushed and the emitted index buffer (each index is pushed `as u16`, i.e.
reduced `% 65536`).  The vertex *contents* (`get_vertex`: positions, averaged
normals, UVs) are not modelled — no claim mentions them.  Window bounds are
clamped to the grid exactly as in the source; the nested `while` loops with
`idx_z` / `idx_x` counters become enumerated `stepList`s. -/
def as_geometry (g : SimpleHeightmapGeometry)
    (lod left_x top_z right_x bottom_z : ℕ) : ℕ × List ℕ :=
  let left_x := min left_x g.width
  let top_z := min top_z g.height
  let right_x := min right_x g.width
  let bottom_z := min bottom_z g.height
  let width := (right_x - left_x) / lod
  let zs := stepList top_z bottom_z lod
  let xs := stepList left_x right_x lod
  let vertexCount := zs.length * xs.length
  let indices :=
    (zs.enum.map (fun iz =>
      (xs.enum.map (fun ix =>
        if ix.2 < right_x - lod ∧ iz.2 < bottom_z - lod then
          (if iz.2 % 2 = 0 then
            [iz.1 + ix.1 * width, iz.1 + (ix.1 + 1) * width,
             iz.1 + 1 + ix.1 * width,
             iz.1 + 1 + ix.1 * width, iz.1 + (ix.1 + 1) * width,
             iz.1 + 1 + (ix.1 + 1) * width]
           else
            [iz.1 + ix.1 * width, iz.1 + 1 + (ix.1 + 1) * width,
             iz.1 + 1 + ix.1 * width,
             iz.1 + ix.1 * width, iz.1 + (ix.1 + 1) * width,
             iz.1 + 1 + (ix.1 + 1) * width]).map (· % 65536)
        else [])).flatten)).flatten
  (vertexCount, indices)

/-- The validity check at the end of `as_geometry`:
`let vs = vertices.len(); let mi = indices.iter().max().unwrap_or(&0);
if mi != vs || vs > u16::max_value() as usize + 1 { error!(...) }`. -/
def as_geometry_error (g : SimpleHeightmapGeometry)
    (lod left_x top_z right_x bottom_z : ℕ) : Bool :=
  let m := g.as_geometry lod left_x top_z right_x bottom_z
  decide (m.2.foldr max 0 ≠ m.1) || decide (65536 < m.1)

end SimpleHeightmapGeometry

/-- A 4 × 2 grid (two staggered rows of four samples). -/
def testGrid4x2 : SimpleHeightmapGeometry :=
  { width := 4, heights := List.replicate 8 0,
    x_offset := 0, z_offset := 0, resolution := 1 }

/-- **C1 (code bug)**: `as_geometry` does *not* maintain
`max(indices) = vertex_count - 1` for every clamped window, and its validity
check misreports.  Two concrete evaluations:

* the 4 × 2 window `(0,0)-(4,2)` at stride 1 produces 8 vertices but a
  maximum index of 13 — indices reference vertices beyond the generated
  count (the transposed index formula `idx_z + idx_x * width` is only
  self-consistent for square sampled windows; the source's own `TODO`
  comment acknowledges out-of-bounds indices are possible);
* the square window `(0,0)-(2,2)` produces a perfectly valid mesh
  (4 vertices, maximum index 3 = 4 - 1), yet the error branch still fires,
  because the check compares the maximum index with `vertex_count` instead
  of `vertex_count - 1` — the reported condition is off by one and fires on
  every valid non-empty mesh. -/
theorem as_geometry_index_invariant_violated :
    ((testGrid4x2.as_geometry 1 0 0 4 2).1 = 8 ∧
     (testGrid4x2.as_geometry 1 0 0 4 2).2.foldr max 0 = 13 ∧
     ¬((testGrid4x2.as_geometry 1 0 0 4 2).2.foldr max 0 =
        (testGrid4x2.as_geometry 1 0 0 4 2).1 - 1)) ∧
    ((testGrid4x2.as_geometry 1 0 0 2 2).1 = 4 ∧
     (testGrid4x2.as_geometry 1 0 0 2 2).2.foldr max 0 = 4 - 1 ∧
     testGrid4x2.as_geometry_error 1 0 0 2 2 = true) := by
  decide

/-- Closed form for the number of adjacent vertices. -/
theorem get_adjacent_vertices_length (g : SimpleHeightmapGeometry) (x z : ℕ) :
    (g.get_adjacent_vertices x z).length =
      (if z % 2 = 0 then
        (if 1 ≤ z then (if 1 ≤ x then 1 else 0) + 1 else 0) +
        (if z + 1 < g.height then (if 1 ≤ x then 1 else 0) + 1 else 0)
       else
        (if 1 ≤ z then 1 + (if x + 1 < g.width then 1 else 0) else 0) +
        (if z + 1 < g.height then 1 + (if x + 1 < g.width then 1 else 0) else 0)) +
      (if 1 ≤ x then 1 else 0) + (if x + 1 < g.width then 1 else 0) := by
  unfold SimpleHeightmapGeometry.get_adjacent_vertices
  split_ifs <;> simp_all

/-- The grid test fixture of the Rust module's `test_adjacents`:
a 4 × 4 grid with `resolution = 1` and zero offsets. -/
def testGrid4x4 : SimpleHeightmapGeometry :=
  { width := 4, heights := List.replicate 16 0,
    x_offset := 0, z_offset := 0, resolution := 1 }

/-- **C4 counterexample**: on the 4×4 grid, vertex `(0, 1)` lies on the left
boundary and is not a corner (`0 < 1 < 3`), yet it has **5** adjacent
vertices — the claimed 3–4 range for boundary non-corner vertices is wrong
(the Rust module's own `test_adjacents` records the same five neighbours
`[0, 1, 8, 9, 5]`). -/
theorem adjacent_count_edge_claim_false :
    (testGrid4x4.get_adjacent_vertices 0 1 = [0, 1, 8, 9, 5] ∧
     (testGrid4x4.get_adjacent_vertices 0 1).length = 5) ∧
    ¬(3 ≤ (testGrid4x4.get_adjacent_vertices 0 1).length ∧
      (testGrid4x4.get_adjacent_vertices 0 1).length ≤ 4) := by
  decide

/-- **C4 (amended)**: on a `w × h` grid with `w, h ≥ 2`, corner vertices have
2 or 3 adjacents, boundary non-corner vertices have 3 to 5, and interior
vertices have exactly 6.  (The original 2 / 3–4 / 6 claim fails: odd-row
left-edge and even-row right-edge vertices have 5 neighbours, and two of
the four corners have 3.) -/
theorem get_adjacent_vertices_count (g : SimpleHeightmapGeometry)
    (w h x z : ℕ) (hW : g.width = w) (hlen : g.heights.length = w * h)
    (hw2 : 2 ≤ w) (hh2 : 2 ≤ h) (hx : x < w) (hz : z < h) :
    (((x = 0 ∨ x = w - 1) ∧ (z = 0 ∨ z = h - 1)) →
      ((g.get_adjacent_vertices x z).length = 2 ∨
       (g.get_adjacent_vertices x z).length = 3)) ∧
    ((((x = 0 ∨ x = w - 1) ∨ (z = 0 ∨ z = h - 1)) ∧
      ¬((x = 0 ∨ x = w - 1) ∧ (z = 0 ∨ z = h - 1))) →
      (3 ≤ (g.get_adjacent_vertices x z).length ∧
       (g.get_adjacent_vertices x z).length ≤ 5)) ∧
    ((0 < x ∧ x < w - 1 ∧ 0 < z ∧ z < h - 1) →
      (g.get_adjacent_vertices x z).length = 6) := by
  have hh : g.height = h := by
    unfold SimpleHeightmapGeometry.height
    rw [hlen, hW, Nat.mul_div_cancel_left h (by omega : 0 < w)]
  rw [get_adjacent_vertices_length, hh, hW]
  split_ifs <;> omega

/-- Witness for the amended C4 at a concrete interior vertex. -/
theorem get_adjacent_vertices_count_witness :
    (testGrid4x4.width = 4 ∧ testGrid4x4.heights.length = 4 * 4 ∧
     2 ≤ 4 ∧ 2 ≤ 4 ∧ 1 < 4 ∧ 1 < 4) ∧
    ((0 < 1 ∧ 1 < 4 - 1 ∧ 0 < 1 ∧ 1 < 4 - 1) →
      (testGrid4x4.get_adjacent_vertices 1 1).length = 6) := by
  refine ⟨⟨rfl, by decide, by decide, by decide, by decide, by decide⟩, ?_⟩
  exact (get_adjacent_vertices_count testGrid4x4 4 4 1 1 rfl (by decide)
    (by decide) (by decide) (by decide) (by decide)).2.2

/-- A 3-vector whose height component may be the `f32::NEG_INFINITY`
sentinel returned by the spatial query (`⊥` of `WithBot ℚ`); the X/Z
components produced by the code are always finite. -/
structure VecBot where
  x : ℚ
  y : WithBot ℚ
  z : ℚ
  deriving DecidableEq, Repr

/-- Injection of a finite vertex position into the sentinel-carrying type. -/
def liftVec (v : Vec3q) : VecBot := ⟨v.x, (v.y : WithBot ℚ), v.z⟩

namespace SimpleHeightmapGeometry

/-- The bounds guard at the top of `SimpleHeightmap::get_tri_from_position`:
`pos[0] < x_offset + 1.0*res || pos[0] > x_offset + (width-1)*res ||
 pos[2] < z_offset + 1.0*res || pos[2] > z_offset + (height-1)*res*ROW_SPACING`. -/
def triOutOfBounds (g : SimpleHeightmapGeometry) (pos : Vec3q) : Prop :=
  pos.x < g.x_offset + 1 * g.resolution ∨
  g.x_offset + ((g.width : ℚ) - 1) * g.resolution < pos.x ∨
  pos.z < g.z_offset + 1 * g.resolution ∨
  g.z_offset + ((g.height : ℚ) - 1) * g.resolution * rowSpacing < pos.z

instance (g : SimpleHeightmapGeometry) (pos : Vec3q) :
    Decidable (g.triOutOfBounds pos) := by
  unfold triOutOfBounds; infer_instance

/-- `let vtx_a = g.get_index_from_position(pos)` — vertex A of the query. -/
def vtx_a (g : SimpleHeightmapGeometry) (pos : Vec3q) : ℕ :=
  g.get_index_from_position pos

/-- Vertex D: one row below A, same column on even rows, next column on odd
rows (`vtx_d_x = if vtx_a_z % 2 == 0 { vtx_a_x } else { vtx_a_x + 1 }`). -/
def vtx_d (g : SimpleHeightmapGeometry) (pos : Vec3q) : ℕ :=
  let vtx_a_z := g.vtx_a pos / g.width
  let vtx_a_x := g.vtx_a pos % g.width
  g.get_index (if vtx_a_z % 2 = 0 then vtx_a_x else vtx_a_x + 1) (vtx_a_z + 1)

/-- First line test (`// Case 1 or 2/3: are we below A-D?`):
`pos[2] > m * pos[0] + b` for the slope/intercept of line A–D. -/
def belowAD (g : SimpleHeightmapGeometry) (pos : Vec3q) : Prop :=
  let vtx_a_pos := g.get_position (g.vtx_a pos)
  let vtx_d_pos := g.get_position (g.vtx_d pos)
  let m := (vtx_d_pos.z - vtx_a_pos.z) / (vtx_d_pos.x - vtx_a_pos.x)
  let b := vtx_a_pos.z - m * vtx_a_pos.x
  m * pos.x + b < pos.z

instance (g : SimpleHeightmapGeometry) (pos : Vec3q) :
    Decidable (g.belowAD pos) := by
  unfold belowAD; infer_instance

/-- Second line test (`// Case 2 or 3: are we above B-D?`):
`pos[2] < m * pos[0] + b` for the slope/intercept of line B–D,
where B = A + 1. -/
def aboveBD (g : SimpleHeightmapGeometry) (pos : Vec3q) : Prop :=
  let vtx_d_pos := g.get_position (g.vtx_d pos)
  let vtx_b_pos := g.get_position (g.vtx_a pos + 1)
  let m := (vtx_b_pos.z - vtx_d_pos.z) / (vtx_b_pos.x - vtx_d_pos.x)
  let b := vtx_b_pos.z - m * vtx_b_pos.x
  pos.z < m * pos.x + b

instance (g : SimpleHeightmapGeometry) (pos : Vec3q) :
    Decidable (g.aboveBD pos) := by
  unfold aboveBD; infer_instance

/-- The `heights`-array indices read by `get_tri_from_position`, in execution
order: A and D are always read (`get_position(vtx_a)`, `get_position(vtx_d)`),
then C = D−1 in case 1, otherwise B = A+1, and E = D+1 in case 3. -/
def triReads (g : SimpleHeightmapGeometry) (pos : Vec3q) : List ℕ :=
  if g.triOutOfBounds pos then []
  else
    [g.vtx_a pos, g.vtx_d pos] ++
      (if g.belowAD pos then [g.vtx_d pos - 1]
       else [g.vtx_a pos + 1] ++
         (if g.aboveBD pos then [] else [g.vtx_d pos + 1]))

end SimpleHeightmapGeometry

/-- The tiled-LOD heightmap (`struct SimpleHeightmap`), without the GPU
facade / material handles (out-of-scope collaborators): the geometry, the
hardcoded tile size, the LOD dead-band centre (`(f32::NAN, f32::NAN)`
initially — NaN is modelled as `none`), and the per-tile stored LOD values
(`LoDTile::lod`; the uploaded `gpu::Model` handle is not modelled). -/
structure SimpleHeightmap where
  geometry : SimpleHeightmapGeometry
  tile_size : ℕ
  lod_zone : Option ℚ × Option ℚ
  lods : List ℕ
  deriving DecidableEq, Repr

namespace SimpleHeightmap

/-- `fn get_tri_from_position(&self, pos) -> [Vec3<f32>; 3]`: the bounds
guard returns the degenerate triangle at `NEG_INFINITY` height; otherwise
one of the three canonical triangles {A,D,C}, {A,B,D}, {B,E,D}. -/
def get_tri_from_position (hm : SimpleHeightmap) (pos : Vec3q) :
    VecBot × VecBot × VecBot :=
  let g := hm.geometry
  if g.triOutOfBounds pos then
    (⟨0, ⊥, 0⟩, ⟨1, ⊥, 0⟩, ⟨0, ⊥, 1⟩)
  else if g.belowAD pos then
    (liftVec (g.get_position (g.vtx_a pos)),
     liftVec (g.get_position (g.vtx_d pos)),
     liftVec (g.get_position (g.vtx_d pos - 1)))
  else if g.aboveBD pos then
    (liftVec (g.get_position (g.vtx_a pos)),
     liftVec (g.get_position (g.vtx_a pos + 1)),
     liftVec (g.get_position (g.vtx_d pos)))
  else
    (liftVec (g.get_position (g.vtx_a pos + 1)),
     liftVec (g.get_position (g.vtx_d pos + 1)),
     liftVec (g.get_position (g.vtx_d pos)))

end SimpleHeightmap

/-- **C3**: for every position outside the documented bounds (the guard's X
interval `[x_offset + res, x_offset + (width-1)*res]` and the analogous Z
interval `[z_offset + res, z_offset + (height-1)*res*ROW_SPACING]`),
`get_tri_from_position` returns the degenerate triangle whose three vertices
all have height `-∞`, and it reads no element of the `heights` array at all
(the guard returns before any indexing, so no panic is possible there). -/
theorem get_tri_from_position_out_of_bounds (hm : SimpleHeightmap)
    (pos : Vec3q) (h : hm.geometry.triOutOfBounds pos) :
    hm.get_tri_from_position pos = (⟨0, ⊥, 0⟩, ⟨1, ⊥, 0⟩, ⟨0, ⊥, 1⟩) ∧
    hm.geometry.triReads pos = [] := by
  constructor
  · unfold SimpleHeightmap.get_tri_from_position
    rw [if_pos h]
  · unfold SimpleHeightmapGeometry.triReads
    rw [if_pos h]

/-- Witness for C3: a position left of the grid. -/
theorem get_tri_from_position_out_of_bounds_witness :
    (let hm : SimpleHeightmap :=
      { geometry := testGrid4x4, tile_size := 256,
        lod_zone := (none, none), lods := [] }
     hm.geometry.triOutOfBounds ⟨-5, 0, 2⟩ ∧
     (hm.get_tri_from_position ⟨-5, 0, 2⟩ = (⟨0, ⊥, 0⟩, ⟨1, ⊥, 0⟩, ⟨0, ⊥, 1⟩) ∧
      hm.geometry.triReads ⟨-5, 0, 2⟩ = [])) := by
  have h : testGrid4x4.triOutOfBounds ⟨-5, 0, 2⟩ := by
    unfold SimpleHeightmapGeometry.triOutOfBounds
    left
    norm_num [testGrid4x4]
  exact ⟨h, get_tri_from_position_out_of_bounds _ _ h⟩

/-- **C9 counterexample**: the position `(1, ·, 3·ROW_SPACING)` on the 4×4
grid passes the in-bounds guard (its Z coordinate equals the guard's upper
bound exactly, and the guard rejects only strictly greater values), yet the
query computes vertex D one row below the last row: index
`17 ≥ 16 = heights.len()`, an out-of-bounds read of the `heights` array
(`get_position(vtx_d)` would panic in Rust). -/
theorem tri_reads_out_of_range_at_z_boundary :
    ¬ testGrid4x4.triOutOfBounds ⟨1, 0, 3 * rowSpacing⟩ ∧
    17 ∈ testGrid4x4.triReads ⟨1, 0, 3 * rowSpacing⟩ ∧
    testGrid4x4.heights.length ≤ 17 := by
  have hh : testGrid4x4.height = 4 := by
    norm_num [SimpleHeightmapGeometry.height, testGrid4x4]
  have hoob : ¬ testGrid4x4.triOutOfBounds ⟨1, 0, 3 * rowSpacing⟩ := by
    unfold SimpleHeightmapGeometry.triOutOfBounds
    rw [hh]
    norm_num [testGrid4x4, rowSpacing]
  have ha : testGrid4x4.vtx_a ⟨1, 0, 3 * rowSpacing⟩ = 12 := by
    unfold SimpleHeightmapGeometry.vtx_a
      SimpleHeightmapGeometry.get_index_from_position
      SimpleHeightmapGeometry.get_index
    norm_num [testGrid4x4, rowSpacing]
    decide
  have hd : testGrid4x4.vtx_d ⟨1, 0, 3 * rowSpacing⟩ = 17 := by
    unfold SimpleHeightmapGeometry.vtx_d SimpleHeightmapGeometry.get_index
    rw [ha]
    norm_num [testGrid4x4]
  have hA : testGrid4x4.get_position 12 =
      ⟨1/2, 0, 3 * rowSpacing⟩ := by
    unfold SimpleHeightmapGeometry.get_position
    norm_num [testGrid4x4]
  have hD : testGrid4x4.get_position 17 =
      ⟨1, 0, 4 * rowSpacing⟩ := by
    unfold SimpleHeightmapGeometry.get_position
    norm_num [testGrid4x4]
  have hbAD : ¬ testGrid4x4.belowAD ⟨1, 0, 3 * rowSpacing⟩ := by
    unfold SimpleHeightmapGeometry.belowAD
    rw [ha, hd, hA, hD]
    norm_num [rowSpacing]
  refine ⟨hoob, ?_, by norm_num [testGrid4x4]⟩
  unfold SimpleHeightmapGeometry.triReads
  rw [if_neg hoob, if_neg hbAD, ha, hd]
  simp

/-- The squared viewer-to-tile-center XZ distance computed at the top of
`fn gen_lod` (`center_x`/`center_z` followed by `distance_square`). -/
def viewer_tile_distance_sq (hm : SimpleHeightmap) (pos : Vec3q) (x z : ℕ) : ℚ :=
  let center_x := ((x : ℚ) + (hm.tile_size : ℚ) / 2) *
    hm.geometry.resolution + hm.geometry.x_offset
  let center_z := ((z : ℚ) + (hm.tile_size : ℚ) / 2) *
    hm.geometry.resolution * rowSpacing + hm.geometry.z_offset
  (pos.x - center_x) * (pos.x - center_x) +
    (pos.z - center_z) * (pos.z - center_z)

/-- `fn gen_lod(hm, pos, x, z) -> usize`: normalize the squared distance by
the squared tile extent, take the greatest power of two below it
(`tds.log(2.0).floor().exp2()`, i.e. `2 ^ Int.log 2 tds` — for `tds ≤ 0` the
Rust NaN chain also ends in `f32::max(1.0, NaN) = 1.0`, which `Int.log`'s
junk value 0 reproduces as `2^0 = 1`), clamp below by `1.0`, cast to `usize`
(`Nat.floor` of a value ≥ 1) and clamp above by `tile_size - 1`. -/
def gen_lod (hm : SimpleHeightmap) (pos : Vec3q) (x z : ℕ) : ℕ :=
  let distance_square := viewer_tile_distance_sq hm pos x z
  let tile_distance_square := distance_square /
    ((hm.tile_size : ℚ) * hm.geometry.resolution *
     (hm.tile_size : ℚ) * hm.geometry.resolution)
  min (⌊max 1 ((2:ℚ) ^ (Int.log 2 tile_distance_square))⌋₊) (hm.tile_size - 1)

/-- The clamped power-of-two kernel of `gen_lod` is monotone. -/
theorem max_one_two_zpow_log_mono (q1 q2 : ℚ) (h : q1 ≤ q2) :
    max 1 ((2:ℚ) ^ (Int.log 2 q1)) ≤ max 1 ((2:ℚ) ^ (Int.log 2 q2)) := by
  rcases le_or_lt q1 0 with h0 | h0
  · rw [Int.log_of_right_le_zero _ h0]
    simp
  · exact max_le_max le_rfl
      (zpow_le_zpow_right₀ (by norm_num) (Int.log_mono_right h0 h))

/-- `gen_lod` always lands in `[1, tile_size - 1]` (for `tile_size ≥ 2`). -/
theorem gen_lod_bounds (hm : SimpleHeightmap) (pos : Vec3q) (x z : ℕ)
    (hts : 2 ≤ hm.tile_size) :
    1 ≤ gen_lod hm pos x z ∧ gen_lod hm pos x z ≤ hm.tile_size - 1 := by
  unfold gen_lod
  refine ⟨le_min (Nat.le_floor ?_) (by omega), min_le_right _ _⟩
  rw [Nat.cast_one]
  exact le_max_left _ _

/-- `gen_lod` is monotone in the squared viewer-to-tile-center distance. -/
theorem gen_lod_mono (hm : SimpleHeightmap) (pos1 pos2 : Vec3q) (x z : ℕ)
    (h : viewer_tile_distance_sq hm pos1 x z ≤ viewer_tile_distance_sq hm pos2 x z) :
    gen_lod hm pos1 x z ≤ gen_lod hm pos2 x z := by
  unfold gen_lod
  have hd : viewer_tile_distance_sq hm pos1 x z /
        ((hm.tile_size : ℚ) * hm.geometry.resolution *
         (hm.tile_size : ℚ) * hm.geometry.resolution) ≤
      viewer_tile_distance_sq hm pos2 x z /
        ((hm.tile_size : ℚ) * hm.geometry.resolution *
         (hm.tile_size : ℚ) * hm.geometry.resolution) := by
    set D := (hm.tile_size : ℚ) * hm.geometry.resolution *
      (hm.tile_size : ℚ) * hm.geometry.resolution with hD
    rcases eq_or_ne D 0 with h0 | h0
    · rw [h0, div_zero, div_zero]
    · have hDpos : 0 < D := by
        rcases lt_or_gt_of_ne h0 with hlt | hgt
        · exfalso
          have : 0 ≤ D := by
            rw [hD]
            have : (hm.tile_size : ℚ) * hm.geometry.resolution *
                (hm.tile_size : ℚ) * hm.geometry.resolution =
                ((hm.tile_size : ℚ) * hm.geometry.resolution) *
                ((hm.tile_size : ℚ) * hm.geometry.resolution) := by ring
            rw [this]
            exact mul_self_nonneg _
          linarith
        · exact hgt
      exact (div_le_div_iff_of_pos_right hDpos).mpr h
  exact min_le_min
    (Nat.floor_mono (max_one_two_zpow_log_mono _ _ hd)) le_rfl

/-- **C5**: with tile size and resolution held fixed, `gen_lod` is
non-decreasing in the viewer-to-tile-center XZ distance, and it always
returns a value in `[1, tile_size - 1]`.  (Monotonicity in the distance is
stated via the squared distance the code computes; both orderings agree on
non-negative distances.) -/
theorem gen_lod_monotone_and_in_range (hm : SimpleHeightmap)
    (pos1 pos2 : Vec3q) (x z : ℕ)
    (hts : 2 ≤ hm.tile_size) (hres : 0 < hm.geometry.resolution) :
    (viewer_tile_distance_sq hm pos1 x z ≤ viewer_tile_distance_sq hm pos2 x z →
      gen_lod hm pos1 x z ≤ gen_lod hm pos2 x z) ∧
    (1 ≤ gen_lod hm pos1 x z ∧ gen_lod hm pos1 x z ≤ hm.tile_size - 1) := by
  exact ⟨gen_lod_mono hm pos1 pos2 x z, gen_lod_bounds hm pos1 x z hts⟩

/-- Witness for C5 at a concrete heightmap and pair of viewer positions. -/
theorem gen_lod_monotone_and_in_range_witness :
    (let hm : SimpleHeightmap :=
      { geometry := testGrid4x4, tile_size := 256,
        lod_zone := (none, none), lods := [] }
     2 ≤ hm.tile_size ∧ (0:ℚ) < hm.geometry.resolution ∧
     ((viewer_tile_distance_sq hm ⟨0, 0, 0⟩ 0 0 ≤
         viewer_tile_distance_sq hm ⟨1000, 0, 0⟩ 0 0 →
       gen_lod hm ⟨0, 0, 0⟩ 0 0 ≤ gen_lod hm ⟨1000, 0, 0⟩ 0 0) ∧
      (1 ≤ gen_lod hm ⟨0, 0, 0⟩ 0 0 ∧
       gen_lod hm ⟨0, 0, 0⟩ 0 0 ≤ hm.tile_size - 1))) := by
  refine ⟨by norm_num, by norm_num [testGrid4x4], ?_⟩
  exact gen_lod_monotone_and_in_range _ ⟨0, 0, 0⟩ ⟨1000, 0, 0⟩ 0 0
    (by norm_num) (by norm_num [testGrid4x4])

/-- Truncation toward zero, the rounding used by Rust's `f32` `%` operator. -/
def qtrunc (q : ℚ) : ℤ := if 0 ≤ q then ⌊q⌋ else ⌈q⌉

/-- `a % b` on `f32`: `a - b * trunc(a / b)`. -/
def qfmod (a b : ℚ) : ℚ := a - b * qtrunc (a / b)

/-- The remainder has magnitude at most the (positive) divisor. -/
theorem abs_qfmod_le (a b : ℚ) (hb : 0 < b) : |qfmod a b| ≤ b := by
  have ha : a = b * (a / b) := by field_simp
  unfold qfmod qtrunc
  have key : ∀ t : ℤ, |a / b - (t : ℚ)| ≤ 1 → |a - b * t| ≤ b := by
    intro t ht
    nth_rewrite 1 [ha]
    rw [← mul_sub, abs_mul, abs_of_pos hb]
    calc b * |a / b - (t : ℚ)| ≤ b * 1 := mul_le_mul_of_nonneg_left ht hb.le
      _ = b := mul_one b
  split_ifs with h
  · exact key _ (abs_le.mpr
      ⟨by linarith [Int.floor_le (a / b)], by linarith [Int.sub_one_lt_floor (a / b)]⟩)
  · exact key _ (abs_le.mpr
      ⟨by linarith [Int.ceil_lt_add_one (a / b)], by linarith [Int.le_ceil (a / b)]⟩)

/-- `(pos - zone).abs()` where the stored zone coordinate may be NaN
(`none`); NaN propagates. -/
def nanAbsSub (p : ℚ) (c : Option ℚ) : Option ℚ := c.map (fun c0 => |p - c0|)

/-- `diff <= size` on `f32`: any comparison against NaN is false. -/
def nanLe (d : Option ℚ) (s : ℚ) : Bool :=
  match d with
  | none => false
  | some q => decide (q ≤ s)

/-- One iteration of the tile loop in `update_lod`: the accumulator carries
(`self.lods`, `index`, `updated_tiles`); a tile whose freshly computed LOD
differs from the stored one is overwritten (the regenerated `gpu::Model` is
not modelled) and counted.

The `self.lods[index]` read is modelled by `getD _ 0`, which is faithful
only while `index < lods.len()`: in Rust an out-of-range `index` is a `Vec`
bounds-check panic, not a default read.  The loop's accesses run over
indices `0, …, lodLoopVisits − 1` (see `lodLoopVisits`), so theorems about
the recompute branch carry hypotheses under which
`lodLoopVisits ≤ lods.length`, i.e. the panic path is provably never
reached; see `update_lod_first_pass_overruns_tile_allocation` for a
configuration where Rust does panic. -/
def lodLoopStep (f : ℕ × ℕ → ℕ) (acc : List ℕ × ℕ × ℕ) (xz : ℕ × ℕ) :
    List ℕ × ℕ × ℕ :=
  let lod := f xz
  if lod ≠ acc.1.getD acc.2.1 0 then
    (acc.1.set acc.2.1 lod, acc.2.1 + 1, acc.2.2 + 1)
  else (acc.1, acc.2.1 + 1, acc.2.2)

/-- `fn update_lod(&mut self, pos)`: if the viewer left the dead band (or the
zone is still NaN), recompute every tile's LOD over the x-outer/z-inner loop,
re-centre the zone at the viewer position snapped by `pos - pos % (size/2)`,
and return the number of regenerated tiles (`updated_tiles`); otherwise do
nothing.  `self.lods[index]` reads are modelled by `getD _ 0`; this is
faithful only while the running index stays below `lods.len()`, which on a
freshly built heightmap holds exactly when both grid dimensions are
multiples of the 256-cell tile size (`with_size` allocates
`(w*h)/(256*256)` tiles while the loop visits `⌈w/256⌉ * ⌈h/256⌉`) —
otherwise Rust panics mid-loop.  Theorems about the recompute branch are
therefore restricted to configurations where `lodLoopVisits ≤ lods.length`
is proved. -/
def update_lod (hm : SimpleHeightmap) (pos : Vec3q) : SimpleHeightmap × ℕ :=
  let lod_zone_size := (hm.tile_size : ℚ) * hm.geometry.resolution
  let diff := (nanAbsSub pos.x hm.lod_zone.1, nanAbsSub pos.z hm.lod_zone.2)
  if ¬(nanLe diff.1 lod_zone_size && nanLe diff.2 lod_zone_size) then
    let new_lod_zone := (some (pos.x - qfmod pos.x (lod_zone_size / 2)),
                         some (pos.z - qfmod pos.z (lod_zone_size / 2)))
    let xs := stepList 0 hm.geometry.width hm.tile_size
    let zs := stepList 0 hm.geometry.height hm.tile_size
    let coords := (xs.map (fun x => zs.map (fun z => (x, z)))).flatten
    let r := coords.foldl
      (lodLoopStep (fun xz => gen_lod hm pos xz.1 xz.2)) (hm.lods, 0, 0)
    ({ hm with lod_zone := new_lod_zone, lods := r.1 }, r.2.2)
  else (hm, 0)

/-- `fn with_size(width, height, ...)`: `width * height` zero heights, the
hardcoded `tile_size = 256`, the NaN dead band, and
`(width*height)/(256*256)` tiles whose LOD is the `usize::MAX` "never
generated" sentinel. -/
def usizeMax : ℕ := 2 ^ 64 - 1

/-- See `usizeMax`; the GPU-upload of the initial empty geometry is not
modelled. -/
def with_size (width height : ℕ) (x_offset z_offset resolution : ℚ) :
    SimpleHeightmap :=
  { geometry :=
      { width := width
        heights := List.replicate (width * height) 0
        x_offset := x_offset
        z_offset := z_offset
        resolution := resolution },
    tile_size := 256,
    lod_zone := (none, none),
    lods := List.replicate ((width * height) / (256 * 256)) usizeMax }

/-- Number of `self.lods[index]` accesses performed by the tile loop of
`update_lod` on the recompute branch: one per visited tile
(`⌈width/tile_size⌉ * ⌈height()/tile_size⌉`), at the running indices
`0, 1, …, count − 1`.  Rust's `Vec` indexing panics as soon as the running
index reaches `lods.len()`, i.e. exactly when this count exceeds
`lods.len()`. -/
def lodLoopVisits (hm : SimpleHeightmap) : ℕ :=
  (stepList 0 hm.geometry.width hm.tile_size).length *
    (stepList 0 hm.geometry.height hm.tile_size).length

/-- If the stored zone passes both dead-band comparisons, `update_lod` is a
no-op reporting zero regenerated tiles. -/
theorem update_lod_skip (hm : SimpleHeightmap) (pos : Vec3q)
    (h : (nanLe (nanAbsSub pos.x hm.lod_zone.1)
            ((hm.tile_size : ℚ) * hm.geometry.resolution) &&
          nanLe (nanAbsSub pos.z hm.lod_zone.2)
            ((hm.tile_size : ℚ) * hm.geometry.resolution)) = true) :
    update_lod hm pos = (hm, 0) := by
  unfold update_lod
  rw [if_neg]
  intro hc
  exact hc h

/-- On the recompute branch, the new state keeps the geometry and tile size
and stores the snapped zone. -/
theorem update_lod_recompute (hm : SimpleHeightmap) (pos : Vec3q)
    (h : ¬((nanLe (nanAbsSub pos.x hm.lod_zone.1)
            ((hm.tile_size : ℚ) * hm.geometry.resolution) &&
          nanLe (nanAbsSub pos.z hm.lod_zone.2)
            ((hm.tile_size : ℚ) * hm.geometry.resolution)) = true)) :
    (update_lod hm pos).1.geometry = hm.geometry ∧
    (update_lod hm pos).1.tile_size = hm.tile_size ∧
    (update_lod hm pos).1.lod_zone =
      (some (pos.x - qfmod pos.x
        ((hm.tile_size : ℚ) * hm.geometry.resolution / 2)),
       some (pos.z - qfmod pos.z
        ((hm.tile_size : ℚ) * hm.geometry.resolution / 2))) := by
  unfold update_lod
  rw [if_pos h]
  exact ⟨rfl, rfl, rfl⟩

/-- **C6** (dead-band stability): whatever the starting state, once
`update_lod` has run for a (finite) viewer position, running it again for
the same position regenerates zero tiles and leaves the heightmap state
unchanged. -/
theorem update_lod_idempotent (hm : SimpleHeightmap) (pos : Vec3q)
    (hts : 1 ≤ hm.tile_size) (hres : 0 < hm.geometry.resolution) :
    update_lod (update_lod hm pos).1 pos = ((update_lod hm pos).1, 0) := by
  have hs : 0 < (hm.tile_size : ℚ) * hm.geometry.resolution := by
    apply mul_pos _ hres
    exact_mod_cast Nat.lt_of_lt_of_le Nat.zero_lt_one hts
  by_cases h : (nanLe (nanAbsSub pos.x hm.lod_zone.1)
      ((hm.tile_size : ℚ) * hm.geometry.resolution) &&
    nanLe (nanAbsSub pos.z hm.lod_zone.2)
      ((hm.tile_size : ℚ) * hm.geometry.resolution)) = true
  · rw [update_lod_skip hm pos h]
    exact update_lod_skip hm pos h
  · obtain ⟨hg, ht, hz⟩ := update_lod_recompute hm pos h
    apply update_lod_skip
    rw [hg, ht, hz]
    have hhalf : 0 < (hm.tile_size : ℚ) * hm.geometry.resolution / 2 := by
      linarith
    have habs : ∀ p : ℚ,
        nanLe (nanAbsSub p (some (p - qfmod p
          ((hm.tile_size : ℚ) * hm.geometry.resolution / 2))))
          ((hm.tile_size : ℚ) * hm.geometry.resolution) = true := by
      intro p
      simp only [nanLe, nanAbsSub, Option.map_some', decide_eq_true_eq]
      have h1 : |p - (p - qfmod p
          ((hm.tile_size : ℚ) * hm.geometry.resolution / 2))| =
          |qfmod p ((hm.tile_size : ℚ) * hm.geometry.resolution / 2)| := by
        ring_nf
      rw [h1]
      calc |qfmod p ((hm.tile_size : ℚ) * hm.geometry.resolution / 2)| ≤
          (hm.tile_size : ℚ) * hm.geometry.resolution / 2 :=
            abs_qfmod_le _ _ hhalf
        _ ≤ (hm.tile_size : ℚ) * hm.geometry.resolution := by linarith
    rw [habs pos.x, habs pos.z]
    rfl

/-- Witness for C6 on a concrete heightmap and viewer position. -/
theorem update_lod_idempotent_witness :
    (let hm : SimpleHeightmap := with_size 256 256 0 0 1
     1 ≤ hm.tile_size ∧ (0:ℚ) < hm.geometry.resolution ∧
     update_lod (update_lod hm ⟨3, 0, 5⟩).1 ⟨3, 0, 5⟩ =
       ((update_lod hm ⟨3, 0, 5⟩).1, 0)) := by
  refine ⟨by norm_num [with_size], by norm_num [with_size], ?_⟩
  exact update_lod_idempotent _ _ (by norm_num [with_size])
    (by norm_num [with_size])

/-- On the recompute branch, `updated_tiles` is the result of folding the
tile loop over the x-outer/z-inner tile coordinates. -/
theorem update_lod_recompute_count (hm : SimpleHeightmap) (pos : Vec3q)
    (h : ¬((nanLe (nanAbsSub pos.x hm.lod_zone.1)
            ((hm.tile_size : ℚ) * hm.geometry.resolution) &&
          nanLe (nanAbsSub pos.z hm.lod_zone.2)
            ((hm.tile_size : ℚ) * hm.geometry.resolution)) = true)) :
    (update_lod hm pos).2 =
      ((((stepList 0 hm.geometry.width hm.tile_size).map
          (fun x => (stepList 0 hm.geometry.height hm.tile_size).map
            (fun z => (x, z)))).flatten).foldl
        (lodLoopStep (fun xz => gen_lod hm pos xz.1 xz.2))
        (hm.lods, 0, 0)).2.2 := by
  unfold update_lod
  rw [if_pos h]

/-- If every computed LOD differs from every stored value at or beyond the
running index, the tile loop updates (and counts) every visited tile. -/
theorem lodLoop_count_all (f : ℕ × ℕ → ℕ) (hf : ∀ xz, 1 ≤ f xz ∧ f xz ≤ 255)
    (cs : List (ℕ × ℕ)) (ls : List ℕ) (i c : ℕ)
    (hls : ∀ j, i ≤ j → ls.getD j 0 = usizeMax ∨ ls.getD j 0 = 0) :
    (cs.foldl (lodLoopStep f) (ls, i, c)).2.2 = c + cs.length := by
  induction cs generalizing ls i c with
  | nil => simp
  | cons xz rest ih =>
    have hM : 255 < usizeMax := by norm_num [usizeMax]
    have hne : f xz ≠ ls.getD i 0 := by
      rcases hls i le_rfl with hstore | hstore <;> rw [hstore] <;>
        rcases hf xz with ⟨h1, h2⟩ <;> omega
    have hstep : lodLoopStep f (ls, i, c) xz =
        (ls.set i (f xz), i + 1, c + 1) := by
      unfold lodLoopStep
      rw [if_pos hne]
    rw [List.foldl_cons, hstep, ih _ _ _ ?_]
    · simp [List.length_cons]
      omega
    · intro j hj
      have hset : (ls.set i (f xz)).getD j 0 = ls.getD j 0 := by
        simp only [List.getD_eq_getElem?_getD]
        rw [List.getElem?_set_ne (by omega)]
      rw [hset]
      exact hls j (by omega)

/-- The x-outer/z-inner tile coordinate list has one entry per tile. -/
theorem flatten_map_pairs_length {α β : Type} (xs : List α) (zs : List β) :
    ((xs.map (fun x => zs.map (fun z => (x, z)))).flatten).length =
      xs.length * zs.length := by
  induction xs with
  | nil => simp
  | cons a t ih =>
    simp only [List.map_cons, List.flatten_cons, List.length_append,
      List.length_map, List.length_cons, ih]
    ring

/-- **C7 counterexample**: the claim fails as stated on a freshly
constructed 4×4 heightmap.  The NaN zone (`(none, none)`) does force the
recompute branch for every viewer position (first conjunct, at the origin),
but `with_size` allocates `(4*4)/(256*256) = 0` tiles while the tile loop
makes `⌈4/256⌉ * ⌈4/256⌉ = 1` access — its very first `self.lods[0]` read
is out of bounds, so in Rust the first `update_lod` call panics mid-loop
instead of performing a full pass over every tile (and never stores the
snapped zone). -/
theorem update_lod_first_pass_overruns_tile_allocation :
    (¬((nanLe (nanAbsSub (Vec3q.mk 0 0 0).x (with_size 4 4 0 0 1).lod_zone.1)
          (((with_size 4 4 0 0 1).tile_size : ℚ) *
            (with_size 4 4 0 0 1).geometry.resolution) &&
        nanLe (nanAbsSub (Vec3q.mk 0 0 0).z (with_size 4 4 0 0 1).lod_zone.2)
          (((with_size 4 4 0 0 1).tile_size : ℚ) *
            (with_size 4 4 0 0 1).geometry.resolution)) = true)) ∧
    lodLoopVisits (with_size 4 4 0 0 1) = 1 ∧
    (with_size 4 4 0 0 1).lods.length = 0 ∧
    ¬(lodLoopVisits (with_size 4 4 0 0 1) ≤
        (with_size 4 4 0 0 1).lods.length) := by
  refine ⟨?_, by decide, by decide, by decide⟩
  intro hc
  have hzone : (with_size 4 4 0 0 1).lod_zone = (none, none) := rfl
  rw [hzone] at hc
  simp [nanAbsSub, nanLe] at hc

/-- **C7 (amended)**: on a freshly constructed heightmap *whose width and
height are multiples of the 256-cell tile size* (so that the tile loop's
`self.lods[index]` accesses all stay below `lods.len()` — first conjunct —
and Rust completes the loop), the NaN LOD zone (`(none, none)` in the
model) forces the recompute branch for *every* viewer position: the first
`update_lod` call stores a snapped finite zone and performs a full pass
regenerating every one of the `(w/256) * (h/256)` allocated tiles (each
stored LOD is the `usize::MAX` sentinel, which never equals a freshly
computed LOD in `[1, 255]`).  For non-multiple sizes the first call instead
panics mid-loop — see `update_lod_first_pass_overruns_tile_allocation`. -/
theorem with_size_first_update_full_pass (w h : ℕ) (x0 z0 res : ℚ)
    (pos : Vec3q) (hw : 0 < w) (hdw : 256 ∣ w) (hdh : 256 ∣ h) :
    lodLoopVisits (with_size w h x0 z0 res) =
      (with_size w h x0 z0 res).lods.length ∧
    (update_lod (with_size w h x0 z0 res) pos).1.lod_zone =
      (some (pos.x - qfmod pos.x (((256:ℕ) : ℚ) * res / 2)),
       some (pos.z - qfmod pos.z (((256:ℕ) : ℚ) * res / 2))) ∧
    (update_lod (with_size w h x0 z0 res) pos).2 = (w / 256) * (h / 256) := by
  obtain ⟨a, rfl⟩ := hdw
  obtain ⟨b, rfl⟩ := hdh
  have hzone : (with_size (256 * a) (256 * b) x0 z0 res).lod_zone =
      (none, none) := rfl
  have hcond : ¬((nanLe (nanAbsSub pos.x
        (with_size (256 * a) (256 * b) x0 z0 res).lod_zone.1)
        (((with_size (256 * a) (256 * b) x0 z0 res).tile_size : ℚ) *
          (with_size (256 * a) (256 * b) x0 z0 res).geometry.resolution) &&
      nanLe (nanAbsSub pos.z
        (with_size (256 * a) (256 * b) x0 z0 res).lod_zone.2)
        (((with_size (256 * a) (256 * b) x0 z0 res).tile_size : ℚ) *
          (with_size (256 * a) (256 * b) x0 z0 res).geometry.resolution)) =
        true) := by
    rw [hzone]
    simp [nanAbsSub, nanLe]
  have hh : (with_size (256 * a) (256 * b) x0 z0 res).geometry.height =
      256 * b := by
    show (List.replicate (256 * a * (256 * b)) (0:ℚ)).length / (256 * a) =
      256 * b
    rw [List.length_replicate, Nat.mul_div_cancel_left (256 * b) hw]
  have hwid : (with_size (256 * a) (256 * b) x0 z0 res).geometry.width =
      256 * a := rfl
  have hts : (with_size (256 * a) (256 * b) x0 z0 res).tile_size = 256 := rfl
  have e1 : (stepList 0 (256 * a) 256).length = a := by
    simp only [stepList, List.length_map, List.length_range]
    omega
  have e2 : (stepList 0 (256 * b) 256).length = b := by
    simp only [stepList, List.length_map, List.length_range]
    omega
  have hvis : lodLoopVisits (with_size (256 * a) (256 * b) x0 z0 res) =
      a * b := by
    unfold lodLoopVisits
    rw [hwid, hh, hts, e1, e2]
  have hlen : (with_size (256 * a) (256 * b) x0 z0 res).lods.length =
      a * b := by
    show (List.replicate ((256 * a * (256 * b)) / (256 * 256))
      usizeMax).length = a * b
    rw [List.length_replicate,
      show 256 * a * (256 * b) = 256 * 256 * (a * b) from by ring,
      Nat.mul_div_cancel_left _ (by norm_num : 0 < 256 * 256)]
  refine ⟨by rw [hvis, hlen], (update_lod_recompute _ _ hcond).2.2, ?_⟩
  rw [update_lod_recompute_count _ _ hcond]
  rw [lodLoop_count_all _ ?_ _ _ _ _ ?_]
  · rw [flatten_map_pairs_length, hwid, hh, hts, e1, e2, Nat.zero_add,
      show 256 * a / 256 = a from by omega,
      show 256 * b / 256 = b from by omega]
  · intro xz
    have hb := gen_lod_bounds (with_size (256 * a) (256 * b) x0 z0 res) pos
      xz.1 xz.2 (by norm_num [with_size])
    rw [hts] at hb
    omega
  · intro j hj
    have hlods : (with_size (256 * a) (256 * b) x0 z0 res).lods =
        List.replicate ((256 * a * (256 * b)) / (256 * 256)) usizeMax := rfl
    rw [hlods]
    simp only [List.getD_eq_getElem?_getD, List.getElem?_replicate]
    split_ifs with hcase
    · left; rfl
    · right; rfl

/-- Witness for the amended C7 on a 256×256 grid (one tile). -/
theorem with_size_first_update_full_pass_witness :
    (0 < 256 ∧ (256:ℕ) ∣ 256 ∧ (256:ℕ) ∣ 256) ∧
    (lodLoopVisits (with_size 256 256 0 0 1) =
      (with_size 256 256 0 0 1).lods.length ∧
     (update_lod (with_size 256 256 0 0 1) ⟨7, 0, 9⟩).1.lod_zone =
      (some ((7:ℚ) - qfmod 7 (((256:ℕ) : ℚ) * 1 / 2)),
       some ((9:ℚ) - qfmod 9 (((256:ℕ) : ℚ) * 1 / 2))) ∧
     (update_lod (with_size 256 256 0 0 1) ⟨7, 0, 9⟩).2 =
      256 / 256 * (256 / 256)) :=
  ⟨⟨by norm_num, by norm_num, by norm_num⟩,
   with_size_first_update_full_pass 256 256 0 0 1 ⟨7, 0, 9⟩ (by norm_num)
     (by norm_num) (by norm_num)⟩

/-- `struct CharacterState` (`src/physics.rs`): position, velocity and the
four positive movement constants. -/
structure CharacterState where
  loc : Vec3q
  vel : Vec3q
  max_speed : ℚ
  decel : ℚ
  max_jump : ℚ
  gravity : ℚ
  deriving DecidableEq, Repr

/-- `struct MovementState` (`src/main.rs`): the five intent flags and the
remaining jump-acceleration budget (`can_jump: u8`, modelled as `ℕ`; the
code only decrements it when it is positive, so no wrap-around occurs). -/
structure MovementState where
  forward : Bool
  backward : Bool
  left : Bool
  right : Bool
  jumping : Bool
  can_jump : ℕ
  deriving DecidableEq, Repr

/-- Unfolding lemma for vector subtraction. -/
theorem Vec3q.sub_def (a b : Vec3q) :
    a - b = ⟨a.x - b.x, a.y - b.y, a.z - b.z⟩ := rfl

/-- Ground height under `loc` (lines 69–77 of `physics.rs`): plane equation
of the triangle returned by the heightmap's spatial query.  The heightmap
trait object is abstracted as a total triangle-valued function `tri`. -/
def ground_height (tri : Vec3q → Vec3q × Vec3q × Vec3q) (loc : Vec3q) : ℚ :=
  let hm_vertices := tri loc
  let hm_normal :=
    (hm_vertices.1 - hm_vertices.2.2).cross (hm_vertices.1 - hm_vertices.2.1)
  let hm_d := hm_normal.dot hm_vertices.1
  (hm_d - hm_normal.x * loc.x - hm_normal.z * loc.z) / hm_normal.y

/-- `fn do_char_movement(&mut self, dir, movement, heightmap)`.
The in-place mutations of `self` and `movement` become a returned pair.
`f32::hypot` — the one f32 primitive with an irrational result, hence not
representable over `ℚ` — is passed in as the explicit argument `hyp`; the
theorems below either hold for every `hyp` or use no property of it.
`dir` is read through an immutable reference in the source, so it cannot be
mutated; in the embedding it is a pure input. -/
def do_char_movement (hyp : ℚ → ℚ → ℚ)
    (tri : Vec3q → Vec3q × Vec3q × Vec3q) (dir : Vec3q)
    (s : CharacterState) (m : MovementState) :
    CharacterState × MovementState :=
  let height := ground_height tri s.loc
  let accel := s.decel + s.max_speed / 5
  let jump_accel := s.gravity + s.max_jump / 5
  let v0 := s.vel
  let v1 : Vec3q :=
    if m.forward then ⟨v0.x + dir.x * accel, v0.y, v0.z + dir.z * accel⟩ else v0
  let v2 : Vec3q :=
    if m.backward then ⟨v1.x - dir.x * accel, v1.y, v1.z - dir.z * accel⟩ else v1
  let v3 : Vec3q :=
    if m.left then ⟨v2.x - dir.z * accel, v2.y, v2.z + dir.x * accel⟩ else v2
  let v4 : Vec3q :=
    if m.right then ⟨v3.x + dir.z * accel, v3.y, v3.z - dir.x * accel⟩ else v3
  let jump : ℕ × ℚ :=
    if m.jumping then
      (if s.loc.y ≤ height then (5, v4.y + jump_accel)
       else if 0 < m.can_jump then (m.can_jump - 1, v4.y + jump_accel)
       else (m.can_jump, v4.y))
    else (m.can_jump, v4.y)
  let v5 : Vec3q := ⟨v4.x, jump.2, v4.z⟩
  let char_speed := hyp v5.x v5.z
  let multiplier :=
    if s.max_speed < char_speed - s.decel then s.max_speed / char_speed
    else max 0 ((char_speed - s.decel) / char_speed)
  let v6 : Vec3q := ⟨v5.x * multiplier, v5.y, v5.z * multiplier⟩
  let v7 : Vec3q := ⟨v6.x, v6.y - s.gravity, v6.z⟩
  let loc : Vec3q := ⟨s.loc.x + v7.x, s.loc.y + v7.y, s.loc.z + v7.z⟩
  let lv : Vec3q × Vec3q :=
    if loc.y ≤ height then (⟨loc.x, height, loc.z⟩, ⟨v7.x, 0, v7.z⟩)
    else (loc, v7)
  ({ s with loc := lv.1, vel := lv.2 }, { m with can_jump := jump.1 })

/-- **C10** (frame effect): `do_char_movement` mutates only `loc`, `vel` and
`can_jump`.  The four constants of `CharacterState` and the five intent
flags of `MovementState` survive every call unchanged, for every heightmap,
direction, hypot implementation and starting state (`dir` itself is a pure
input in the embedding, mirroring the `&Vec3<f32>` immutable borrow). -/
theorem do_char_movement_frame_effect (hyp : ℚ → ℚ → ℚ)
    (tri : Vec3q → Vec3q × Vec3q × Vec3q) (dir : Vec3q)
    (s : CharacterState) (m : MovementState) :
    (do_char_movement hyp tri dir s m).1.max_speed = s.max_speed ∧
    (do_char_movement hyp tri dir s m).1.decel = s.decel ∧
    (do_char_movement hyp tri dir s m).1.max_jump = s.max_jump ∧
    (do_char_movement hyp tri dir s m).1.gravity = s.gravity ∧
    (do_char_movement hyp tri dir s m).2.forward = m.forward ∧
    (do_char_movement hyp tri dir s m).2.backward = m.backward ∧
    (do_char_movement hyp tri dir s m).2.left = m.left ∧
    (do_char_movement hyp tri dir s m).2.right = m.right ∧
    (do_char_movement hyp tri dir s m).2.jumping = m.jumping :=
  ⟨rfl, rfl, rfl, rfl, rfl, rfl, rfl, rfl, rfl⟩

/-- The flat ground of the C8 scenario: the spatial query always returns a
non-degenerate triangle of height 0 (`h = 0` everywhere). -/
def flatTri : Vec3q → Vec3q × Vec3q × Vec3q :=
  fun _ => (⟨0, 0, 0⟩, ⟨1, 0, 0⟩, ⟨0, 0, 1⟩)

/-- On the flat scenario ground the plane equation yields height 0. -/
theorem ground_height_flatTri (loc : Vec3q) : ground_height flatTri loc = 0 := by
  simp [ground_height, flatTri, Vec3q.sub_def, Vec3q.cross, Vec3q.dot]

/-- The C8 start state: at rest (`vel = 0`) at `loc.y = 0` with jump intent
held and no XZ movement input. -/
def jumpScenarioStart (ms dc mj g : ℚ) (c0 : ℕ) :
    CharacterState × MovementState :=
  (⟨⟨0, 0, 0⟩, ⟨0, 0, 0⟩, ms, dc, mj, g⟩, ⟨false, false, false, false, true, c0⟩)

/-- Evaluation of one grounded tick with jump intent and zero XZ velocity:
`can_jump` is set to 5, one tick of jump acceleration plus gravity leaves
`vel.y = vy + max_jump/5`, and (provided that is positive) the ground clamp
is not taken. -/
theorem do_char_movement_grounded_jump (hyp : ℚ → ℚ → ℚ) (dir : Vec3q)
    (ms dc mj g lx lz vy : ℚ) (c : ℕ) (h : 0 < vy + mj / 5) :
    do_char_movement hyp flatTri dir
        ⟨⟨lx, 0, lz⟩, ⟨0, vy, 0⟩, ms, dc, mj, g⟩
        ⟨false, false, false, false, true, c⟩ =
      (⟨⟨lx, vy + mj / 5, lz⟩, ⟨0, vy + mj / 5, 0⟩, ms, dc, mj, g⟩,
       ⟨false, false, false, false, true, 5⟩) := by
  unfold do_char_movement
  rw [ground_height_flatTri]
  simp only [Bool.false_eq_true, if_false, if_true]
  rw [if_pos (le_refl (0:ℚ))]
  have hnc : ¬((0:ℚ) + (vy + (g + mj / 5) - g) ≤ 0) := by
    intro hc
    rw [zero_add] at hc
    have : vy + (g + mj / 5) - g = vy + mj / 5 := by ring
    rw [this] at hc
    linarith
  simp only [zero_mul, if_neg hnc]
  simp only [Prod.mk.injEq, CharacterState.mk.injEq, Vec3q.mk.injEq,
    MovementState.mk.injEq]
  norm_num
  all_goals first | rfl | omega | ring

/-- Evaluation of one airborne tick with jump intent, remaining budget and
zero XZ velocity: `can_jump` decrements, jump acceleration is applied, and
(provided the new altitude stays positive) the clamp is not taken. -/
theorem do_char_movement_airborne_jump (hyp : ℚ → ℚ → ℚ) (dir : Vec3q)
    (ms dc mj g lx ly lz vy : ℚ) (c : ℕ) (hly : 0 < ly) (hc : 0 < c)
    (hclamp : 0 < ly + (vy + mj / 5)) :
    do_char_movement hyp flatTri dir
        ⟨⟨lx, ly, lz⟩, ⟨0, vy, 0⟩, ms, dc, mj, g⟩
        ⟨false, false, false, false, true, c⟩ =
      (⟨⟨lx, ly + (vy + mj / 5), lz⟩, ⟨0, vy + mj / 5, 0⟩, ms, dc, mj, g⟩,
       ⟨false, false, false, false, true, c - 1⟩) := by
  unfold do_char_movement
  rw [ground_height_flatTri]
  simp only [Bool.false_eq_true, if_false, if_true]
  rw [if_neg (by linarith : ¬(ly ≤ (0:ℚ)))]
  rw [if_pos hc]
  have hnc : ¬(ly + (vy + (g + mj / 5) - g) ≤ 0) := by
    intro hcl
    have : vy + (g + mj / 5) - g = vy + mj / 5 := by ring
    rw [this] at hcl
    linarith
  simp only [zero_mul, if_neg hnc]
  simp only [Prod.mk.injEq, CharacterState.mk.injEq, Vec3q.mk.injEq,
    MovementState.mk.injEq]
  norm_num
  all_goals first | rfl | omega | ring

/-- Shape of the scenario state after `1 + k` ticks (`k ≤ 5`): altitude
`(k+1)(k+2)/2 · (mj/5)`, vertical velocity `(k+1) · mj/5`, budget `5 - k`. -/
theorem jump_scenario_invariant (hyp : ℚ → ℚ → ℚ) (dir : Vec3q)
    (ms dc mj g : ℚ) (c0 : ℕ) (hmj : 0 < mj) :
    ∀ k, k ≤ 5 →
      (fun p : CharacterState × MovementState =>
          do_char_movement hyp flatTri dir p.1 p.2)^[k]
        (do_char_movement hyp flatTri dir (jumpScenarioStart ms dc mj g c0).1
          (jumpScenarioStart ms dc mj g c0).2) =
      (⟨⟨0, (((k + 1) * (k + 2) : ℕ) : ℚ) / 2 * (mj / 5), 0⟩,
        ⟨0, ((k + 1 : ℕ) : ℚ) * (mj / 5), 0⟩, ms, dc, mj, g⟩,
       ⟨false, false, false, false, true, 5 - k⟩) := by
  intro k
  induction k with
  | zero =>
    intro _
    simp only [Function.iterate_zero, id_eq, jumpScenarioStart]
    rw [do_char_movement_grounded_jump hyp dir ms dc mj g 0 0 0 c0
      (by linarith)]
    norm_num
  | succ n ih =>
    intro hn
    rw [Function.iterate_succ_apply', ih (by omega)]
    have hly : 0 < (((n + 1) * (n + 2) : ℕ) : ℚ) / 2 * (mj / 5) := by
      have : (0:ℚ) < (((n + 1) * (n + 2) : ℕ) : ℚ) := by
        exact_mod_cast Nat.pos_of_ne_zero (by positivity)
      positivity
    have hclamp : 0 < (((n + 1) * (n + 2) : ℕ) : ℚ) / 2 * (mj / 5) +
        (((n + 1 : ℕ) : ℚ) * (mj / 5) + mj / 5) := by
      have h1 : (0:ℚ) ≤ ((n + 1 : ℕ) : ℚ) * (mj / 5) := by positivity
      linarith
    rw [do_char_movement_airborne_jump hyp dir ms dc mj g 0 _ 0 _ (5 - n)
      hly (by omega) hclamp]
    simp only [Prod.mk.injEq, CharacterState.mk.injEq, Vec3q.mk.injEq,
      MovementState.mk.injEq]
    repeat' apply And.intro
    all_goals first | rfl | omega | (push_cast; try ring)

/-- **C8** (integrator scenario): starting at rest on flat ground of height 0
with jump intent held and no XZ input, one tick leaves
`vel.y = jump_accel - gravity` (with `jump_accel = gravity + max_jump/5`)
and sets `can_jump = 5`; over the following airborne ticks with intent held,
`can_jump` decrements by one per tick, reaching 0 exactly 5 ticks after
liftoff. -/
theorem jump_budget_scenario (hyp : ℚ → ℚ → ℚ) (dir : Vec3q)
    (ms dc mj g : ℚ) (c0 : ℕ) (hmj : 0 < mj) :
    ((do_char_movement hyp flatTri dir (jumpScenarioStart ms dc mj g c0).1
        (jumpScenarioStart ms dc mj g c0).2).1.vel.y = (g + mj / 5) - g ∧
     (do_char_movement hyp flatTri dir (jumpScenarioStart ms dc mj g c0).1
        (jumpScenarioStart ms dc mj g c0).2).2.can_jump = 5) ∧
    (∀ k, k ≤ 5 →
      ((fun p : CharacterState × MovementState =>
          do_char_movement hyp flatTri dir p.1 p.2)^[k]
        (do_char_movement hyp flatTri dir (jumpScenarioStart ms dc mj g c0).1
          (jumpScenarioStart ms dc mj g c0).2)).2.can_jump = 5 - k) := by
  have h0 := jump_scenario_invariant hyp dir ms dc mj g c0 hmj 0 (by omega)
  simp only [Function.iterate_zero, id_eq] at h0
  refine ⟨⟨?_, ?_⟩, ?_⟩
  · rw [h0]
    push_cast
    ring
  · rw [h0]
  · intro k hk
    rw [jump_scenario_invariant hyp dir ms dc mj g c0 hmj k hk]

/-- Witness for C8 at concrete constants. -/
theorem jump_budget_scenario_witness :
    (0:ℚ) < 5 ∧
    (((do_char_movement (fun _ _ => 0) flatTri ⟨0, 0, 0⟩
        (jumpScenarioStart 1 1 5 1 0).1
        (jumpScenarioStart 1 1 5 1 0).2).1.vel.y = ((1:ℚ) + 5 / 5) - 1 ∧
      (do_char_movement (fun _ _ => 0) flatTri ⟨0, 0, 0⟩
        (jumpScenarioStart 1 1 5 1 0).1
        (jumpScenarioStart 1 1 5 1 0).2).2.can_jump = 5) ∧
     (∀ k, k ≤ 5 →
       ((fun p : CharacterState × MovementState =>
           do_char_movement (fun _ _ => 0) flatTri ⟨0, 0, 0⟩ p.1 p.2)^[k]
         (do_char_movement (fun _ _ => 0) flatTri ⟨0, 0, 0⟩
           (jumpScenarioStart 1 1 5 1 0).1
           (jumpScenarioStart 1 1 5 1 0).2)).2.can_jump = 5 - k)) :=
  ⟨by norm_num,
   jump_budget_scenario (fun _ _ => 0) ⟨0, 0, 0⟩ 1 1 5 1 0 (by norm_num)⟩

/-- Division/remainder of a decomposed index `c + r * w` with `c < w`. -/
theorem index_decomp (w c r : ℕ) (hc : c < w) :
    (c + r * w) / w = r ∧ (c + r * w) % w = c := by
  have hw : 0 < w := by omega
  constructor
  · rw [Nat.add_mul_div_right _ _ hw, Nat.div_eq_of_lt hc, Nat.zero_add]
  · rw [Nat.add_mul_mod_self_right, Nat.mod_eq_of_lt hc]

/-- C2 helper: evaluating the position of a decomposed index `c + r * w`. -/
theorem get_position_decomp (g : SimpleHeightmapGeometry) (c r : ℕ)
    (hc : c < g.width) :
    g.get_position (c + r * g.width) =
      ⟨((c : ℚ) + (if r % 2 = 0 then 0 else 1/2)) * g.resolution + g.x_offset,
       g.heights.getD (c + r * g.width) 0,
       (r : ℚ) * rowSpacing * g.resolution + g.z_offset⟩ := by
  have hw : 0 < g.width := by omega
  have hmod : (c + r * g.width) % g.width = c := by
    rw [Nat.add_mul_mod_self_right, Nat.mod_eq_of_lt hc]
  have hdiv : (c + r * g.width) / g.width = r := by
    rw [Nat.add_mul_div_right _ _ hw, Nat.div_eq_of_lt hc, Nat.zero_add]
  simp [SimpleHeightmapGeometry.get_position, hmod, hdiv]

/-- **C2** (round-trip): for every valid vertex index `i` of a `W × H` grid
with positive resolution, `get_index_from_position (get_position i) = i`. -/
theorem get_index_from_position_get_position (g : SimpleHeightmapGeometry)
    (W H i : ℕ) (hW : g.width = W) (hlen : g.heights.length = W * H)
    (hi : i < W * H) (hres : 0 < g.resolution) :
    g.get_index_from_position (g.get_position i) = i := by
  subst hW
  have hw : 0 < g.width := by
    rcases Nat.eq_zero_or_pos g.width with h0 | h1
    · rw [h0] at hi; omega
    · exact h1
  clear hlen hi
  have hc : i % g.width < g.width := Nat.mod_lt _ hw
  have hdecomp : i % g.width + (i / g.width) * g.width = i := Nat.mod_add_div' i g.width
  have hres' : g.resolution ≠ 0 := ne_of_gt hres
  have hrs : rowSpacing ≠ 0 := by norm_num [rowSpacing]
  -- evaluate the position of i
  have hpos := get_position_decomp g (i % g.width) (i / g.width) hc
  rw [hdecomp] at hpos
  rw [hpos]
  unfold SimpleHeightmapGeometry.get_index_from_position
  have hz : (((i / g.width : ℕ) : ℚ) * rowSpacing * g.resolution + g.z_offset - g.z_offset) /
      g.resolution / rowSpacing = ((i / g.width : ℕ) : ℚ) := by
    field_simp
  simp only [hz, Int.floor_natCast]
  have hzpar : ((i / g.width : ℕ) : ℤ) % 2 = 0 ↔ (i / g.width) % 2 = 0 := by
    omega
  have hx : (((i % g.width : ℕ) + (if (i / g.width) % 2 = 0 then 0 else 1/2 : ℚ))
        * g.resolution + g.x_offset - g.x_offset) / g.resolution -
      (if ((i / g.width : ℕ) : ℤ) % 2 = 0 then (0:ℚ) else 1/2) =
      ((i % g.width : ℕ) : ℚ) := by
    by_cases hp : (i / g.width) % 2 = 0
    · rw [if_pos hp, if_pos (hzpar.mpr hp)]
      field_simp
    · rw [if_neg hp, if_neg (fun h => hp (hzpar.mp h))]
      field_simp
      ring
  rw [hx]
  simp only [Int.floor_natCast, Int.toNat_natCast]
  unfold SimpleHeightmapGeometry.get_index
  exact hdecomp

/-- Witness for C2 at a concrete grid and index. -/
theorem get_index_from_position_get_position_witness :
    (let g : SimpleHeightmapGeometry :=
      { width := 4, heights := List.replicate 16 0,
        x_offset := 0, z_offset := 0, resolution := 1 }
     g.width = 4 ∧ g.heights.length = 4 * 4 ∧ 7 < 4 * 4 ∧ (0:ℚ) < g.resolution ∧
     g.get_index_from_position (g.get_position 7) = 7) := by
  refine ⟨rfl, by decide, by decide, by norm_num, ?_⟩
  exact get_index_from_position_get_position _ 4 4 7 rfl (by decide) (by decide) (by norm_num)

set_option maxHeartbeats 2000000 in
/-- **C9 (amended)**: for every position that passes the in-bounds guard of
`get_tri_from_position` *and whose Z coordinate is strictly below the
guard's upper Z bound*, every index used to read the `heights` array during
the query (A, D, and the branch-dependent C = D−1, B = A+1, E = D+1) is
strictly less than `heights.len()`, so the query performs no out-of-bounds
read and cannot panic.  (The strictness amendment is forced: at
`pos.z = z_offset + (height-1)·res·ROW_SPACING` exactly, the guard passes
but vertex D's row is `height`, an out-of-range index — see the
counterexample.) -/
theorem triReads_bounded (g : SimpleHeightmapGeometry) (w h : ℕ) (pos : Vec3q)
    (hW : g.width = w) (hlen : g.heights.length = w * h)
    (hres : 0 < g.resolution)
    (hoob : ¬ g.triOutOfBounds pos)
    (hstrict : pos.z < g.z_offset + ((h : ℚ) - 1) * g.resolution * rowSpacing) :
    ∀ i ∈ g.triReads pos, i < g.heights.length := by
  subst hW
  have hRS1 : (0:ℚ) < rowSpacing := by norm_num [rowSpacing]
  have hRS2 : rowSpacing < 1 := by norm_num [rowSpacing]
  have hbounds := hoob
  unfold SimpleHeightmapGeometry.triOutOfBounds at hbounds
  push_neg at hbounds
  obtain ⟨hx1, hx2, hz1, _⟩ := hbounds
  -- the guard is only satisfiable on grids at least 2 wide
  have hw2 : 2 ≤ g.width := by
    by_contra hlt
    push_neg at hlt
    have hcast : ((g.width:ℚ) - 1) ≤ 0 := by
      have : (g.width:ℚ) ≤ 1 := by exact_mod_cast Nat.lt_succ_iff.mp hlt
      linarith
    nlinarith [mul_le_mul_of_nonneg_right hcast hres.le]
  have hheight : g.height = h := by
    unfold SimpleHeightmapGeometry.height
    rw [hlen, Nat.mul_div_cancel_left h (by omega)]
  -- ratio facts
  have hratx1 : (1:ℚ) ≤ (pos.x - g.x_offset) / g.resolution := by
    rw [le_div_iff₀ hres]
    linarith
  have hratxU : (pos.x - g.x_offset) / g.resolution ≤ (g.width:ℚ) - 1 := by
    rw [div_le_iff₀ hres]
    linarith
  have hρRS : 0 < g.resolution * rowSpacing := mul_pos hres hRS1
  have hratz0 : (0:ℚ) ≤ (pos.z - g.z_offset) / g.resolution / rowSpacing := by
    rw [div_div]
    apply div_nonneg _ hρRS.le
    linarith
  have hratzU : (pos.z - g.z_offset) / g.resolution / rowSpacing < (h:ℚ) - 1 := by
    rw [div_div, div_lt_iff₀ hρRS]
    have e : ((h:ℚ) - 1) * (g.resolution * rowSpacing) =
        ((h:ℚ) - 1) * g.resolution * rowSpacing := by ring
    rw [e]
    linarith
  set row := ⌊(pos.z - g.z_offset) / g.resolution / rowSpacing⌋ with hrowdef
  have hrow0 : 0 ≤ row := Int.floor_nonneg.mpr hratz0
  have hrowU : row < (h:ℤ) - 1 := by
    apply Int.floor_lt.mpr
    push_cast
    exact hratzU
  have hh2 : 2 ≤ h := by omega
  set colOff := (if row % 2 = 0 then (0:ℚ) else 1/2) with hoffdef
  have hoff0 : 0 ≤ colOff ∧ colOff ≤ 1/2 := by
    rw [hoffdef]
    split_ifs <;> norm_num
  set col := ⌊(pos.x - g.x_offset) / g.resolution - colOff⌋ with hcoldef
  have hcol0 : 0 ≤ col := Int.floor_nonneg.mpr (by linarith [hoff0.1, hoff0.2])
  have hcolU : col ≤ (g.width:ℤ) - 1 := by
    have hle : (pos.x - g.x_offset) / g.resolution - colOff ≤
        (((g.width:ℤ) - 1 : ℤ) : ℚ) := by
      push_cast
      linarith [hoff0.1]
    calc col ≤ ⌊(((g.width:ℤ) - 1 : ℤ) : ℚ)⌋ := Int.floor_mono hle
      _ = (g.width:ℤ) - 1 := Int.floor_intCast _
  have hcolOdd : ¬ row % 2 = 0 → col ≤ (g.width:ℤ) - 2 := by
    intro hodd
    have hoff : colOff = 1/2 := by rw [hoffdef, if_neg hodd]
    have hlt : (pos.x - g.x_offset) / g.resolution - colOff <
        (((g.width:ℤ) - 1 : ℤ) : ℚ) := by
      rw [hoff]
      push_cast
      linarith
    have := Int.floor_lt.mpr hlt
    omega
  -- Nat versions
  have hrownat : ((row.toNat : ℤ)) = row := Int.toNat_of_nonneg hrow0
  have hcolnat : ((col.toNat : ℤ)) = col := Int.toNat_of_nonneg hcol0
  have hva : g.vtx_a pos = col.toNat + row.toNat * g.width := by
    simp only [SimpleHeightmapGeometry.vtx_a,
      SimpleHeightmapGeometry.get_index_from_position,
      SimpleHeightmapGeometry.get_index]
  clear_value col colOff row
  have hcNlt : col.toNat < g.width := by omega
  have hrNU : row.toNat ≤ h - 2 := by omega
  have hvd : g.vtx_d pos =
      (if row.toNat % 2 = 0 then col.toNat else col.toNat + 1) +
        (row.toNat + 1) * g.width := by
    unfold SimpleHeightmapGeometry.vtx_d SimpleHeightmapGeometry.get_index
    rw [hva, (index_decomp g.width col.toNat row.toNat hcNlt).1,
      (index_decomp g.width col.toNat row.toNat hcNlt).2]
  have hparity : row.toNat % 2 = 0 ↔ row % 2 = 0 := by omega
  -- generic index bounds
  have hwpos : 0 < g.width := by omega
  have hidx : ∀ c r : ℕ, c < g.width → r < h → c + r * g.width < g.width * h := by
    intro c r hc hr
    calc c + r * g.width < g.width + r * g.width := by omega
      _ = (r + 1) * g.width := by ring
      _ ≤ h * g.width := Nat.mul_le_mul_right _ (by omega)
      _ = g.width * h := Nat.mul_comm _ _
  have ha_lt : g.vtx_a pos < g.width * h := by
    rw [hva]
    exact hidx _ _ hcNlt (by omega)
  have hdx_lt : (if row.toNat % 2 = 0 then col.toNat else col.toNat + 1) <
      g.width := by
    split_ifs with hpar
    · exact hcNlt
    · have := hcolOdd (fun hcontra => hpar (hparity.mpr hcontra))
      omega
  have hd_lt : g.vtx_d pos < g.width * h := by
    rw [hvd]
    exact hidx _ _ hdx_lt (by omega)
  have ha1_lt : g.vtx_a pos + 1 < g.width * h := by
    rw [hva]
    calc col.toNat + row.toNat * g.width + 1 ≤ g.width + row.toNat * g.width := by
          omega
      _ = (row.toNat + 1) * g.width := by ring
      _ ≤ (h - 1) * g.width := Nat.mul_le_mul_right _ (by omega)
      _ < h * g.width := by
          apply (Nat.mul_lt_mul_right hwpos).mpr
          omega
      _ = g.width * h := Nat.mul_comm _ _
  -- strict upper bound on pos.z below row+1
  have hzup : pos.z < g.z_offset + ((row.toNat:ℚ) + 1) *
      g.resolution * rowSpacing := by
    have hfl : (pos.z - g.z_offset) / g.resolution / rowSpacing <
        (row:ℚ) + 1 := by
      rw [hrowdef]
      exact Int.lt_floor_add_one _
    rw [div_div, div_lt_iff₀ hρRS] at hfl
    have hcast : ((row.toNat:ℚ)) = ((row:ℤ):ℚ) := by exact_mod_cast hrownat
    rw [hcast]
    nlinarith
  -- unfold the read list
  intro i hi
  rw [hlen]
  unfold SimpleHeightmapGeometry.triReads at hi
  rw [if_neg hoob] at hi
  by_cases hAD : g.belowAD pos
  · rw [if_pos hAD] at hi
    simp only [List.cons_append, List.nil_append, List.append_nil,
      List.mem_cons, List.mem_singleton, List.not_mem_nil, or_false] at hi
    rcases hi with rfl | rfl | rfl
    · exact ha_lt
    · exact hd_lt
    · exact Nat.lt_of_le_of_lt (Nat.sub_le _ _) hd_lt
  · rw [if_neg hAD] at hi
    by_cases hBD : g.aboveBD pos
    · rw [if_pos hBD] at hi
      simp only [List.cons_append, List.nil_append, List.append_nil,
        List.mem_cons, List.mem_singleton, List.not_mem_nil, or_false] at hi
      rcases hi with rfl | rfl | rfl
      · exact ha_lt
      · exact hd_lt
      · exact ha1_lt
    · rw [if_neg hBD] at hi
      simp only [List.cons_append, List.nil_append, List.append_nil,
        List.mem_cons, List.mem_singleton, List.not_mem_nil, or_false] at hi
      rcases hi with rfl | rfl | rfl | rfl
      · exact ha_lt
      · exact hd_lt
      · exact ha1_lt
      · -- E = D + 1, read only in case 3.  At the maximal column, case 3
        -- is geometrically unreachable: `aboveBD` necessarily holds there,
        -- contradicting this branch.
        by_cases hpar : row.toNat % 2 = 0
        · by_cases hcmax : col.toNat = g.width - 1
          · exfalso
            apply hBD
            -- B wraps to the first vertex of the next row; the B-D line is
            -- horizontal at the next row's Z, and pos.z is strictly below it.
            have hBidx : g.vtx_a pos + 1 = 0 + (row.toNat + 1) * g.width := by
              rw [hva]
              have hsum : col.toNat + 1 = g.width := by omega
              calc col.toNat + row.toNat * g.width + 1 =
                  (col.toNat + 1) + row.toNat * g.width := by ring
                _ = g.width + row.toNat * g.width := by rw [hsum]
                _ = 0 + (row.toNat + 1) * g.width := by ring
            have hDidx : g.vtx_d pos = col.toNat + (row.toNat + 1) * g.width := by
              rw [hvd, if_pos hpar]
            have hpar1 : ¬ (row.toNat + 1) % 2 = 0 := by omega
            have hposB := get_position_decomp g 0 (row.toNat + 1) hwpos
            have hposD := get_position_decomp g col.toNat (row.toNat + 1) hcNlt
            rw [if_neg hpar1] at hposB hposD
            have hBx : (g.get_position (g.vtx_a pos + 1)).x =
                (((0:ℕ):ℚ) + 1/2) * g.resolution + g.x_offset := by
              rw [hBidx, hposB]
            have hBz : (g.get_position (g.vtx_a pos + 1)).z =
                ((row.toNat + 1 : ℕ):ℚ) * rowSpacing * g.resolution +
                  g.z_offset := by
              rw [hBidx, hposB]
            have hDx : (g.get_position (g.vtx_d pos)).x =
                ((col.toNat:ℚ) + 1/2) * g.resolution + g.x_offset := by
              rw [hDidx, hposD]
            have hDz : (g.get_position (g.vtx_d pos)).z =
                ((row.toNat + 1 : ℕ):ℚ) * rowSpacing * g.resolution +
                  g.z_offset := by
              rw [hDidx, hposD]
            simp only [SimpleHeightmapGeometry.aboveBD]
            rw [hBx, hBz, hDx, hDz]
            rw [show ((row.toNat + 1 : ℕ):ℚ) * rowSpacing * g.resolution +
                g.z_offset - (((row.toNat + 1 : ℕ):ℚ) * rowSpacing *
                  g.resolution + g.z_offset) = (0:ℚ) from by ring]
            rw [zero_div]
            push_cast
            nlinarith [hzup]
          · have hcle : col.toNat ≤ g.width - 2 := by omega
            rw [hvd, if_pos hpar]
            have hlt1 : col.toNat + 1 < g.width := by omega
            have := hidx (col.toNat + 1) (row.toNat + 1) hlt1 (by omega)
            omega
        · by_cases hcmax : col.toNat = g.width - 2
          · exfalso
            apply hBD
            -- B is the last vertex of A's row; the B-D line has slope
            -- -2*ROW_SPACING and stays at or above the next row's Z left of
            -- the guard's right X bound, and pos.z is strictly below that.
            have hBidx : g.vtx_a pos + 1 =
                (col.toNat + 1) + row.toNat * g.width := by
              rw [hva]
              ring
            have hc1lt : col.toNat + 1 < g.width := by omega
            have hDidx : g.vtx_d pos =
                (col.toNat + 1) + (row.toNat + 1) * g.width := by
              rw [hvd, if_neg hpar]
            have hpar1 : (row.toNat + 1) % 2 = 0 := by omega
            have hposB := get_position_decomp g (col.toNat + 1) row.toNat hc1lt
            have hposD := get_position_decomp g (col.toNat + 1)
              (row.toNat + 1) hc1lt
            rw [if_neg hpar] at hposB
            rw [if_pos hpar1] at hposD
            have hBx : (g.get_position (g.vtx_a pos + 1)).x =
                (((col.toNat + 1 : ℕ):ℚ) + 1/2) * g.resolution +
                  g.x_offset := by
              rw [hBidx, hposB]
            have hBz : (g.get_position (g.vtx_a pos + 1)).z =
                (row.toNat:ℚ) * rowSpacing * g.resolution + g.z_offset := by
              rw [hBidx, hposB]
            have hDx : (g.get_position (g.vtx_d pos)).x =
                (((col.toNat + 1 : ℕ):ℚ) + 0) * g.resolution +
                  g.x_offset := by
              rw [hDidx, hposD]
            have hDz : (g.get_position (g.vtx_d pos)).z =
                ((row.toNat + 1 : ℕ):ℚ) * rowSpacing * g.resolution +
                  g.z_offset := by
              rw [hDidx, hposD]
            have hx2c : pos.x ≤ g.x_offset +
                ((col.toNat:ℚ) + 1) * g.resolution := by
              have hwcast : ((g.width:ℚ) - 1) = (col.toNat:ℚ) + 1 := by
                have h1 : g.width = col.toNat + 2 := by omega
                rw [h1]
                push_cast
                ring
              rw [hwcast] at hx2
              exact hx2
            simp only [SimpleHeightmapGeometry.aboveBD]
            rw [hBx, hBz, hDx, hDz]
            rw [show ((row.toNat:ℚ) * rowSpacing * g.resolution + g.z_offset -
                (((row.toNat + 1 : ℕ):ℚ) * rowSpacing * g.resolution +
                  g.z_offset)) = -(rowSpacing * g.resolution) from by
              push_cast
              ring]
            rw [show ((((col.toNat + 1 : ℕ):ℚ) + 1/2) * g.resolution +
                g.x_offset - ((((col.toNat + 1 : ℕ):ℚ) + 0) * g.resolution +
                  g.x_offset)) = g.resolution / 2 from by ring]
            have h2ρ : g.resolution / 2 ≠ 0 := by positivity
            rw [show -(rowSpacing * g.resolution) / (g.resolution / 2) =
                -2 * rowSpacing from by
              rw [div_eq_iff h2ρ]
              ring]
            push_cast
            nlinarith [hzup, hx2c,
              mul_nonneg (mul_nonneg (by norm_num : (0:ℚ) ≤ 2) hRS1.le)
                (sub_nonneg.mpr hx2c)]
          · have hcle : col.toNat ≤ g.width - 3 := by
              have := hcolOdd (fun hcontra => hpar (hparity.mpr hcontra))
              omega
            rw [hvd, if_neg hpar]
            have hlt2 : col.toNat + 1 + 1 < g.width := by omega
            have := hidx (col.toNat + 1 + 1) (row.toNat + 1) hlt2 (by omega)
            omega

/-- Witness for the amended C9 on the 4×4 grid at an interior position. -/
theorem triReads_bounded_witness :
    (testGrid4x4.width = 4 ∧ testGrid4x4.heights.length = 4 * 4 ∧
     (0:ℚ) < testGrid4x4.resolution ∧
     ¬ testGrid4x4.triOutOfBounds ⟨2, 0, 2⟩ ∧
     (Vec3q.mk 2 0 2).z < testGrid4x4.z_offset +
       (((4:ℕ):ℚ) - 1) * testGrid4x4.resolution * rowSpacing) ∧
    ∀ i ∈ testGrid4x4.triReads ⟨2, 0, 2⟩, i < testGrid4x4.heights.length := by
  have hh : testGrid4x4.height = 4 := by
    norm_num [SimpleHeightmapGeometry.height, testGrid4x4]
  have h1 : ¬ testGrid4x4.triOutOfBounds ⟨2, 0, 2⟩ := by
    unfold SimpleHeightmapGeometry.triOutOfBounds
    rw [hh]
    norm_num [testGrid4x4, rowSpacing]
  have h2 : (Vec3q.mk 2 0 2).z < testGrid4x4.z_offset +
      (((4:ℕ):ℚ) - 1) * testGrid4x4.resolution * rowSpacing := by
    norm_num [testGrid4x4, rowSpacing]
  exact ⟨⟨rfl, by decide, by norm_num [testGrid4x4], h1, h2⟩,
    triReads_bounded testGrid4x4 4 4 ⟨2, 0, 2⟩ rfl (by decide)
      (by norm_num [testGrid4x4]) h1 h2⟩

end GlDemo
